import Mathlib

/-!
Formal model of the MediLock WebRTC signaling relay
(`src/socket/signaling.js`).

The server keeps two module-level maps, `rooms` and `userSockets`, plus
the socket framework's room-membership relation (`socket.join`,
`socket.leave`, and the automatic leave-all that precedes the
`disconnect` event).  JavaScript `Map`s are modelled as association
lists with in-place replacement on `set`, preserving insertion order;
the framework's membership relation is a list of (room id, socket id)
pairs.  Client-supplied opaque values (user ids, display names, roles,
message bodies, signaling payloads, timestamps) are never inspected by
the relay, so they are modelled as naturals; socket ids and room ids
are opaque identifiers modelled as naturals as well.  Every handler is
a pure function from the server state to an updated state together with
the list of emitted events, each event paired with the socket id it is
addressed to.
-/

namespace MediLock

abbrev SocketId := Nat
abbrev RoomId := Nat

/-- Association-list lookup: the model of JavaScript `Map.prototype.get`
(`none` for a missing key). -/
def sfind? {β : Type} (k : Nat) : List (Nat × β) → Option β
  | [] => none
  | (k', v) :: rest => if k' = k then some v else sfind? k rest

/-- Association-list update: the model of `Map.prototype.set`, replacing
an existing binding in place (preserving insertion order) and appending
a fresh binding at the end. -/
def sinsert {β : Type} (k : Nat) (v : β) : List (Nat × β) → List (Nat × β)
  | [] => [(k, v)]
  | (k', v') :: rest =>
    if k' = k then (k, v) :: rest else (k', v') :: sinsert k v rest

/-- Association-list removal: the model of `Map.prototype.delete`. -/
def serase {β : Type} (k : Nat) : List (Nat × β) → List (Nat × β)
  | [] => []
  | (k', v') :: rest =>
    if k' = k then serase k rest else (k', v') :: serase k rest

/-- Number of occurrences of an element in a list. -/
def countOcc {α : Type} [DecidableEq α] (a : α) : List α → Nat
  | [] => 0
  | b :: rest => (if b = a then 1 else 0) + countOcc a rest

theorem sfind?_sinsert {β : Type} (x k : Nat) (v : β) (l : List (Nat × β)) :
    sfind? x (sinsert k v l) = if k = x then some v else sfind? x l := by
  induction l with
  | nil => by_cases h : k = x <;> simp [sinsert, sfind?, h]
  | cons p rest ih =>
    obtain ⟨k', v'⟩ := p
    by_cases hk : k' = k
    · subst hk
      by_cases hx : k' = x <;> simp [sinsert, sfind?, hx]
    · by_cases hx : k' = x
      · subst hx
        have : ¬ k = k' := fun h => hk h.symm
        simp [sinsert, sfind?, hk, this]
      · simp [sinsert, sfind?, hk, hx, ih]

theorem sfind?_serase {β : Type} (x k : Nat) (l : List (Nat × β)) :
    sfind? x (serase k l) = if k = x then none else sfind? x l := by
  induction l with
  | nil => by_cases h : k = x <;> simp [serase, sfind?, h]
  | cons p rest ih =>
    obtain ⟨k', v'⟩ := p
    by_cases hk : k' = k
    · subst hk
      by_cases hx : k' = x
      · subst hx
        simp [serase, sfind?, ih]
      · simp [serase, sfind?, hx, ih]
    · by_cases hx : k' = x
      · subst hx
        have : ¬ k = k' := fun h => hk h.symm
        simp [serase, sfind?, hk, this]
      · simp [serase, sfind?, hk, hx, ih]

theorem sfind?_sinsert_self {β : Type} (k : Nat) (v : β)
    (l : List (Nat × β)) : sfind? k (sinsert k v l) = some v := by
  rw [sfind?_sinsert]
  simp

theorem sfind?_serase_self {β : Type} (k : Nat) (l : List (Nat × β)) :
    sfind? k (serase k l) = none := by
  rw [sfind?_serase]
  simp

theorem sinsert_ne_nil {β : Type} (k : Nat) (v : β) (l : List (Nat × β)) :
    sinsert k v l ≠ [] := by
  cases l with
  | nil => simp [sinsert]
  | cons p rest =>
    obtain ⟨k', v'⟩ := p
    by_cases h : k' = k <;> simp [sinsert, h]

theorem mem_sinsert {β : Type} {p : Nat × β} {k : Nat} {v : β}
    {l : List (Nat × β)} (h : p ∈ sinsert k v l) : p = (k, v) ∨ p ∈ l := by
  induction l with
  | nil => simpa [sinsert] using h
  | cons q rest ih =>
    obtain ⟨k', v'⟩ := q
    by_cases hk : k' = k
    · subst hk
      rcases (by simpa [sinsert] using h : p = (k', v) ∨ p ∈ rest) with h1 | h1
      · exact Or.inl h1
      · exact Or.inr (List.mem_cons_of_mem _ h1)
    · rcases (by simpa [sinsert, hk] using h :
        p = (k', v') ∨ p ∈ sinsert k v rest) with h1 | h1
      · exact Or.inr (by simp [h1])
      · rcases ih h1 with h2 | h2
        · exact Or.inl h2
        · exact Or.inr (List.mem_cons_of_mem _ h2)

theorem mem_serase {β : Type} {p : Nat × β} {k : Nat}
    {l : List (Nat × β)} (h : p ∈ serase k l) : p ∈ l ∧ p.1 ≠ k := by
  induction l with
  | nil => simp [serase] at h
  | cons q rest ih =>
    obtain ⟨k', v'⟩ := q
    by_cases hk : k' = k
    · subst hk
      have := ih (by simpa [serase] using h)
      exact ⟨List.mem_cons_of_mem _ this.1, this.2⟩
    · rcases (by simpa [serase, hk] using h :
        p = (k', v') ∨ p ∈ serase k rest) with h1 | h1
      · refine ⟨by simp [h1], ?_⟩
        subst h1
        exact hk
      · have := ih h1
        exact ⟨List.mem_cons_of_mem _ this.1, this.2⟩

theorem not_mem_of_sfind?_none {β : Type} {k : Nat} {v : β}
    {l : List (Nat × β)} (h : sfind? k l = none) : (k, v) ∉ l := by
  induction l with
  | nil => simp
  | cons q rest ih =>
    obtain ⟨k', v'⟩ := q
    by_cases hk : k' = k
    · simp [sfind?, hk] at h
    · intro hmem
      rcases List.mem_cons.mp hmem with h1 | h1
      · exact hk (congrArg Prod.fst h1).symm
      · exact ih (by simpa [sfind?, hk] using h) h1

theorem serase_of_sfind?_none {β : Type} {k : Nat}
    {l : List (Nat × β)} (h : sfind? k l = none) : serase k l = l := by
  induction l with
  | nil => simp [serase]
  | cons q rest ih =>
    obtain ⟨k', v'⟩ := q
    by_cases hk : k' = k
    · simp [sfind?, hk] at h
    · simp [serase, hk, ih (by simpa [sfind?, hk] using h)]

theorem sinsert_of_sfind?_none {β : Type} {k : Nat} (v : β)
    {l : List (Nat × β)} (h : sfind? k l = none) :
    sinsert k v l = l ++ [(k, v)] := by
  induction l with
  | nil => simp [sinsert]
  | cons q rest ih =>
    obtain ⟨k', v'⟩ := q
    by_cases hk : k' = k
    · simp [sfind?, hk] at h
    · simp [sinsert, hk, ih (by simpa [sfind?, hk] using h)]

theorem sinsert_of_sfind?_some {β : Type} {k : Nat} {v : β}
    {l : List (Nat × β)} (h : sfind? k l = some v) : sinsert k v l = l := by
  induction l with
  | nil => simp [sfind?] at h
  | cons q rest ih =>
    obtain ⟨k', v'⟩ := q
    by_cases hk : k' = k
    · subst hk
      have : v' = v := by simpa [sfind?] using h
      simp [sinsert, this]
    · simp [sinsert, hk, ih (by simpa [sfind?, hk] using h)]

theorem keys_sinsert_of_sfind?_some {β : Type} {k : Nat} {v₀ : β} (v : β)
    {l : List (Nat × β)} (h : sfind? k l = some v₀) :
    (sinsert k v l).map Prod.fst = l.map Prod.fst := by
  induction l with
  | nil => simp [sfind?] at h
  | cons q rest ih =>
    obtain ⟨k', v'⟩ := q
    by_cases hk : k' = k
    · subst hk
      simp [sinsert]
    · simp [sinsert, hk, ih (by simpa [sfind?, hk] using h)]

theorem length_sinsert_of_sfind?_some {β : Type} {k : Nat} {v₀ : β} (v : β)
    {l : List (Nat × β)} (h : sfind? k l = some v₀) :
    (sinsert k v l).length = l.length := by
  have := keys_sinsert_of_sfind?_some v h
  have h1 := congrArg List.length this
  simpa using h1

theorem countOcc_append {α : Type} [DecidableEq α] (a : α) (l m : List α) :
    countOcc a (l ++ m) = countOcc a l + countOcc a m := by
  induction l with
  | nil => simp [countOcc]
  | cons b rest ih => simp [countOcc, ih]; omega

theorem countOcc_eq_zero_of_not_mem {α : Type} [DecidableEq α] {a : α}
    {l : List α} (h : a ∉ l) : countOcc a l = 0 := by
  induction l with
  | nil => simp [countOcc]
  | cons b rest ih =>
    have hb : ¬ b = a := fun hba => h (by simp [hba])
    simp [countOcc, hb, ih (fun hm => h (List.mem_cons_of_mem _ hm))]

/-- The socket framework's room-membership relation: `socket.join`, a
no-op when the socket is already in the room, otherwise appending the
pair. -/
def sioJoin (r : RoomId) (s : SocketId) (l : List (RoomId × SocketId)) :
    List (RoomId × SocketId) :=
  if (r, s) ∈ l then l else l ++ [(r, s)]

/-- `socket.leave`: remove the socket from one room. -/
def sioLeave (r : RoomId) (s : SocketId) :
    List (RoomId × SocketId) → List (RoomId × SocketId)
  | [] => []
  | p :: rest =>
    if p.1 = r ∧ p.2 = s then sioLeave r s rest else p :: sioLeave r s rest

/-- The automatic leave-all the framework performs for a socket before
its `disconnect` event handler runs. -/
def sioPurge (s : SocketId) :
    List (RoomId × SocketId) → List (RoomId × SocketId)
  | [] => []
  | p :: rest => if p.2 = s then sioPurge s rest else p :: sioPurge s rest

/-- The sockets currently in a framework room, in join order: the
recipient set of a `to(roomId)` / `in(roomId)` emit. -/
def sioMembers (r : RoomId) : List (RoomId × SocketId) → List SocketId
  | [] => []
  | p :: rest =>
    if p.1 = r then p.2 :: sioMembers r rest else sioMembers r rest

/-- Drop a socket from a recipient list: `socket.to(room)` excludes the
emitting socket itself. -/
def exceptSelf (s : SocketId) : List SocketId → List SocketId
  | [] => []
  | x :: rest => if x = s then exceptSelf s rest else x :: exceptSelf s rest

theorem mem_sioLeave {p : RoomId × SocketId} {r : RoomId} {s : SocketId}
    {l : List (RoomId × SocketId)} (h : p ∈ sioLeave r s l) :
    p ∈ l ∧ ¬(p.1 = r ∧ p.2 = s) := by
  induction l with
  | nil => simp [sioLeave] at h
  | cons q rest ih =>
    by_cases hq : q.1 = r ∧ q.2 = s
    · have := ih (by simpa [sioLeave, hq] using h)
      exact ⟨List.mem_cons_of_mem _ this.1, this.2⟩
    · rcases (by simpa [sioLeave, hq] using h :
        p = q ∨ p ∈ sioLeave r s rest) with h1 | h1
      · subst h1
        exact ⟨List.mem_cons_self _ _, hq⟩
      · have := ih h1
        exact ⟨List.mem_cons_of_mem _ this.1, this.2⟩

theorem mem_sioPurge {p : RoomId × SocketId} {s : SocketId}
    {l : List (RoomId × SocketId)} (h : p ∈ sioPurge s l) :
    p ∈ l ∧ p.2 ≠ s := by
  induction l with
  | nil => simp [sioPurge] at h
  | cons q rest ih =>
    by_cases hq : q.2 = s
    · have := ih (by simpa [sioPurge, hq] using h)
      exact ⟨List.mem_cons_of_mem _ this.1, this.2⟩
    · rcases (by simpa [sioPurge, hq] using h :
        p = q ∨ p ∈ sioPurge s rest) with h1 | h1
      · subst h1
        exact ⟨List.mem_cons_self _ _, hq⟩
      · have := ih h1
        exact ⟨List.mem_cons_of_mem _ this.1, this.2⟩

theorem mem_sioJoin {p : RoomId × SocketId} {r : RoomId} {s : SocketId}
    {l : List (RoomId × SocketId)} (h : p ∈ sioJoin r s l) :
    p ∈ l ∨ p = (r, s) := by
  by_cases hm : (r, s) ∈ l
  · exact Or.inl (by simpa [sioJoin, hm] using h)
  · exact (by simpa [sioJoin, hm] using h : p ∈ l ∨ p = (r, s))

theorem sioLeave_sublist (r : RoomId) (s : SocketId)
    (l : List (RoomId × SocketId)) : (sioLeave r s l).Sublist l := by
  induction l with
  | nil => simp [sioLeave]
  | cons q rest ih =>
    by_cases hq : q.1 = r ∧ q.2 = s
    · simpa [sioLeave, hq] using ih.cons q
    · simpa [sioLeave, hq] using ih.cons₂ q

theorem sioPurge_sublist (s : SocketId)
    (l : List (RoomId × SocketId)) : (sioPurge s l).Sublist l := by
  induction l with
  | nil => simp [sioPurge]
  | cons q rest ih =>
    by_cases hq : q.2 = s
    · simpa [sioPurge, hq] using ih.cons q
    · simpa [sioPurge, hq] using ih.cons₂ q

theorem sioJoin_nodup {l : List (RoomId × SocketId)} (r : RoomId)
    (s : SocketId) (h : l.Nodup) : (sioJoin r s l).Nodup := by
  by_cases hm : (r, s) ∈ l
  · simpa [sioJoin, hm] using h
  · simp only [sioJoin, hm, if_false]
    exact List.Nodup.append h (List.nodup_singleton _)
      (by simpa using fun hx => hm hx)

theorem mem_sioMembers {x : SocketId} {r : RoomId}
    {l : List (RoomId × SocketId)} : x ∈ sioMembers r l ↔ (r, x) ∈ l := by
  induction l with
  | nil => simp [sioMembers]
  | cons q rest ih =>
    obtain ⟨r', y⟩ := q
    by_cases hq : r' = r
    · subst hq
      constructor
      · intro h
        rcases (by simpa [sioMembers] using h : x = y ∨ x ∈ sioMembers r' rest)
          with h1 | h1
        · simp [h1]
        · exact List.mem_cons_of_mem _ (ih.mp h1)
      · intro h
        rcases List.mem_cons.mp h with h1 | h1
        · simp [sioMembers, (Prod.mk.injEq _ _ _ _ ▸ h1 : r' = r' ∧ x = y).2]
        · simp [sioMembers, ih.mpr h1]
    · constructor
      · intro h
        exact List.mem_cons_of_mem _ (ih.mp (by simpa [sioMembers, hq] using h))
      · intro h
        rcases List.mem_cons.mp h with h1 | h1
        · exact absurd (congrArg Prod.fst h1).symm hq
        · simpa [sioMembers, hq] using ih.mpr h1

theorem sioMembers_eq_nil {r : RoomId} {l : List (RoomId × SocketId)}
    (h : ∀ x, (r, x) ∉ l) : sioMembers r l = [] := by
  cases hm : sioMembers r l with
  | nil => rfl
  | cons x rest =>
    exact absurd (mem_sioMembers.mp (hm ▸ List.mem_cons_self x rest)) (h x)

theorem countOcc_sioMembers {l : List (RoomId × SocketId)} (r : RoomId)
    (x : SocketId) (h : l.Nodup) :
    countOcc x (sioMembers r l) = if (r, x) ∈ l then 1 else 0 := by
  induction l with
  | nil => simp [sioMembers, countOcc]
  | cons q rest ih =>
    obtain ⟨hq, hrest⟩ := List.nodup_cons.mp h
    obtain ⟨r', y⟩ := q
    by_cases hr : r' = r
    · subst hr
      by_cases hy : y = x
      · subst hy
        have hnot : (r', y) ∉ rest := by simpa using hq
        simp [sioMembers, countOcc, ih hrest, hnot]
      · have : ((r', x) ∈ (r', y) :: rest) ↔ ((r', x) ∈ rest) := by
          simp [Ne.symm hy]
        simp [sioMembers, countOcc, hy, ih hrest, this]
    · have hmem : ((r, x) ∈ (r', y) :: rest) ↔ ((r, x) ∈ rest) := by
        constructor
        · intro hm
          rcases List.mem_cons.mp hm with h1 | h1
          · exact absurd (congrArg Prod.fst h1).symm hr
          · exact h1
        · exact List.mem_cons_of_mem _
      simp [sioMembers, hr, ih hrest, hmem]

theorem mem_exceptSelf {x s : SocketId} {l : List SocketId} :
    x ∈ exceptSelf s l ↔ x ∈ l ∧ x ≠ s := by
  induction l with
  | nil => simp [exceptSelf]
  | cons y rest ih =>
    by_cases hy : y = s
    · subst hy
      constructor
      · intro h
        have := ih.mp (by simpa [exceptSelf] using h)
        exact ⟨List.mem_cons_of_mem _ this.1, this.2⟩
      · intro ⟨h1, h2⟩
        rcases List.mem_cons.mp h1 with h3 | h3
        · exact absurd h3 h2
        · simpa [exceptSelf] using ih.mpr ⟨h3, h2⟩
    · constructor
      · intro h
        rcases (by simpa [exceptSelf, hy] using h :
          x = y ∨ x ∈ exceptSelf s rest) with h1 | h1
        · exact ⟨by simp [h1], h1 ▸ hy⟩
        · have := ih.mp h1
          exact ⟨List.mem_cons_of_mem _ this.1, this.2⟩
      · intro ⟨h1, h2⟩
        rcases List.mem_cons.mp h1 with h3 | h3
        · simp [exceptSelf, hy, h3]
        · simp [exceptSelf, hy, ih.mpr ⟨h3, h2⟩]

theorem exceptSelf_of_not_mem {s : SocketId} {l : List SocketId}
    (h : s ∉ l) : exceptSelf s l = l := by
  induction l with
  | nil => simp [exceptSelf]
  | cons y rest ih =>
    have hy : ¬ y = s := fun hys => h (by simp [hys])
    simp [exceptSelf, hy, ih (fun hm => h (List.mem_cons_of_mem _ hm))]

theorem countOcc_exceptSelf (s x : SocketId) (l : List SocketId) :
    countOcc x (exceptSelf s l) = if x = s then 0 else countOcc x l := by
  induction l with
  | nil => by_cases h : x = s <;> simp [exceptSelf, countOcc, h]
  | cons y rest ih =>
    by_cases hy : y = s
    · subst hy
      by_cases hx : x = y
      · subst hx
        simp [exceptSelf, countOcc, ih]
      · have hyx : ¬ y = x := fun h => hx h.symm
        simp [exceptSelf, countOcc, hx, hyx, ih]
    · by_cases hx : x = s
      · subst hx
        simp [exceptSelf, countOcc, hy, ih]
      · simp [exceptSelf, countOcc, hy, hx, ih]

/-- The registry entry kept in `userSockets` (signaling.js lines 22-27
and 40).  Every field comes straight from a client payload, where any
field may be missing (`undefined`), hence the `Option`s. -/
structure UserInfo where
  userId : Option Nat
  userName : Option Nat
  role : Option Nat
  roomId : Option RoomId
  deriving DecidableEq, Repr

/-- A room's member record (signaling.js lines 59-65). -/
structure MemberRecord where
  socketId : SocketId
  userId : Nat
  userName : Nat
  role : Nat
  joinedAt : Nat
  deriving DecidableEq, Repr

/-- The static encryption-advertisement record (lines 50-54). -/
structure Encryption where
  enabled : Bool
  algorithm : String
  keyExchange : String
  deriving DecidableEq, Repr

def defaultEncryption : Encryption :=
  { enabled := true, algorithm := "AES-256-GCM", keyExchange := "ECDH" }

/-- An entry of the `rooms` directory (lines 47-55). -/
structure Room where
  participants : List (SocketId × MemberRecord)
  createdAt : Nat
  encryption : Encryption
  deriving DecidableEq, Repr

/-- An opaque signaling payload (`offer` / `answer` / `candidate`).  The
relay never reads it; the `claimedFrom` field stands for any sender
identity the payload may assert internally, which the relay must
ignore. -/
structure SignalPayload where
  claimedFrom : Option SocketId
  body : Nat
  deriving DecidableEq, Repr

/-- A server-to-client event, paired on emission with the socket id it
is addressed to. -/
inductive Event where
  | authenticated (success : Bool)
  | roomJoined (roomId : RoomId) (participants : List MemberRecord)
      (encryption : Encryption)
  | userJoined (socketId : SocketId) (userId userName role : Nat)
  | userLeft (socketId : SocketId) (userId userName : Option Nat)
  | offerMsg (socketId : SocketId) (offer : SignalPayload) (roomId : RoomId)
  | answerMsg (socketId : SocketId) (answer : SignalPayload) (roomId : RoomId)
  | iceCandidateMsg (socketId : SocketId) (candidate : SignalPayload)
      (roomId : RoomId)
  | chatMsg (socketId : SocketId) (userId userName : Option Nat)
      (message : Nat) (encrypted : Bool) (timestamp : Nat)
  | errorMsg (message : String)
  deriving DecidableEq, Repr

abbrev Emission := SocketId × Event

/-- The whole mutable state of the signaling server: the `rooms`
directory, the `userSockets` connection registry, and the framework's
room-membership relation. -/
structure ServerState where
  rooms : List (RoomId × Room)
  userSockets : List (SocketId × UserInfo)
  sio : List (RoomId × SocketId)
  deriving DecidableEq, Repr

def initState : ServerState := ⟨[], [], []⟩

/-- Payload of the `authenticate` message (line 20): all four fields are
read off the client data and may each be missing. -/
structure AuthData where
  userId : Option Nat
  userName : Option Nat
  role : Option Nat
  roomId : Option RoomId
  deriving DecidableEq, Repr

/-- Payload of the `join-room` message (line 36). -/
structure JoinData where
  roomId : RoomId
  userId : Nat
  userName : Nat
  role : Nat
  deriving DecidableEq, Repr

/-- Payload of the `offer` / `answer` / `ice-candidate` messages
(lines 92, 111, 130). -/
structure RelayData where
  roomId : RoomId
  payload : SignalPayload
  targetSocketId : SocketId
  deriving DecidableEq, Repr

/-- Payload of the `chat-message` message (line 149). -/
structure ChatData where
  roomId : RoomId
  message : Nat
  encrypted : Bool
  timestamp : Option Nat
  deriving DecidableEq, Repr

/-- `authenticate` handler (lines 19-31): overwrite the whole registry
entry with exactly the four payload fields and acknowledge. -/
def authenticate (s : SocketId) (d : AuthData) (σ : ServerState) :
    ServerState × List Emission :=
  ({σ with userSockets :=
      sinsert s ⟨d.userId, d.userName, d.role, d.roomId⟩ σ.userSockets},
   [(s, Event.authenticated true)])

/-- `join-room` handler (lines 34-88).  In source order: merge the four
payload fields over the existing registry entry (line 40; the entry has
no other fields, so the spread amounts to writing all four), join the
framework room (line 43), create the directory room if missing
(lines 46-56), insert the member record (lines 59-65), notify the other
framework-room members (lines 68-73), and reply to the joiner with the
member list minus itself plus the encryption record (lines 76-81). -/
def joinRoom (s : SocketId) (d : JoinData) (now : Nat) (σ : ServerState) :
    ServerState × List Emission :=
  let userSockets' :=
    sinsert s ⟨some d.userId, some d.userName, some d.role, some d.roomId⟩
      σ.userSockets
  let sio' := sioJoin d.roomId s σ.sio
  let room₀ := (sfind? d.roomId σ.rooms).getD
    ⟨[], now, defaultEncryption⟩
  let mrec : MemberRecord := ⟨s, d.userId, d.userName, d.role, now⟩
  let participants' := sinsert s mrec room₀.participants
  let rooms' :=
    sinsert d.roomId {room₀ with participants := participants'} σ.rooms
  let others := exceptSelf s (sioMembers d.roomId sio')
  (⟨rooms', userSockets', sio'⟩,
   others.map (fun x => (x, Event.userJoined s d.userId d.userName d.role))
     ++ [(s, Event.roomJoined d.roomId
            ((participants'.map Prod.snd).filter
              (fun p => p.socketId ≠ s))
            room₀.encryption)])

/-- `offer` handler (lines 91-107): reject with an error if the room is
not in the directory, otherwise forward to the target socket tagged
with the transport-level sender id. -/
def offer (s : SocketId) (d : RelayData) (σ : ServerState) :
    ServerState × List Emission :=
  match sfind? d.roomId σ.rooms with
  | none => (σ, [(s, Event.errorMsg "Room not found")])
  | some _ =>
    (σ, [(d.targetSocketId, Event.offerMsg s d.payload d.roomId)])

/-- `answer` handler (lines 110-126), identical in shape to `offer`. -/
def answer (s : SocketId) (d : RelayData) (σ : ServerState) :
    ServerState × List Emission :=
  match sfind? d.roomId σ.rooms with
  | none => (σ, [(s, Event.errorMsg "Room not found")])
  | some _ =>
    (σ, [(d.targetSocketId, Event.answerMsg s d.payload d.roomId)])

/-- `ice-candidate` handler (lines 129-145), identical in shape to
`offer`. -/
def iceCandidate (s : SocketId) (d : RelayData) (σ : ServerState) :
    ServerState × List Emission :=
  match sfind? d.roomId σ.rooms with
  | none => (σ, [(s, Event.errorMsg "Room not found")])
  | some _ =>
    (σ, [(d.targetSocketId, Event.iceCandidateMsg s d.payload d.roomId)])

/-- `chat-message` handler (lines 148-167): reject only an
unauthenticated sender; otherwise broadcast to every socket in the
framework room, the sender included, with identity fields taken from
the registry.  No room-existence check is performed. -/
def chatMessage (s : SocketId) (d : ChatData) (now : Nat)
    (σ : ServerState) : ServerState × List Emission :=
  match sfind? s σ.userSockets with
  | none => (σ, [(s, Event.errorMsg "Not authenticated")])
  | some info =>
    (σ, (sioMembers d.roomId σ.sio).map (fun x =>
          (x, Event.chatMsg s info.userId info.userName d.message
                d.encrypted (d.timestamp.getD now))))

/-- `handleLeaveRoom` (lines 257-283): no-op if the room is not in the
directory; otherwise delete the member record, leave the framework
room, emit `user-left` to the remaining framework-room members, and
delete the room when its member map became empty.  The registry entry
of the leaver is not touched. -/
def handleLeaveRoom (s : SocketId) (roomId : RoomId) (σ : ServerState) :
    ServerState × List Emission :=
  match sfind? roomId σ.rooms with
  | none => (σ, [])
  | some room =>
    let info := sfind? s σ.userSockets
    let participants' := serase s room.participants
    let sio' := sioLeave roomId s σ.sio
    let others := exceptSelf s (sioMembers roomId sio')
    let rooms' :=
      if participants' = [] then serase roomId σ.rooms
      else sinsert roomId {room with participants := participants'} σ.rooms
    (⟨rooms', σ.userSockets, sio'⟩,
     others.map (fun x =>
       (x, Event.userLeft s (info.bind UserInfo.userId)
             (info.bind UserInfo.userName))))

/-- `leave-room` handler (lines 231-234): delegates to
`handleLeaveRoom`. -/
def leaveRoom (s : SocketId) (roomId : RoomId) (σ : ServerState) :
    ServerState × List Emission :=
  handleLeaveRoom s roomId σ

/-- `disconnect` handler (lines 237-246).  The framework removes the
socket from every room before the handler runs; the handler then calls
`handleLeaveRoom` for the registry-recorded room, if any, and deletes
the registry entry. -/
def disconnect (s : SocketId) (σ : ServerState) :
    ServerState × List Emission :=
  let σ₀ := {σ with sio := sioPurge s σ.sio}
  match sfind? s σ₀.userSockets with
  | some info =>
    match info.roomId with
    | some r =>
      let res := handleLeaveRoom s r σ₀
      ({res.1 with userSockets := serase s res.1.userSockets}, res.2)
    | none => ({σ₀ with userSockets := serase s σ₀.userSockets}, [])
  | none => ({σ₀ with userSockets := serase s σ₀.userSockets}, [])

/-- One inbound client operation. -/
inductive Op where
  | auth (s : SocketId) (d : AuthData)
  | join (s : SocketId) (d : JoinData) (now : Nat)
  | leave (s : SocketId) (roomId : RoomId)
  | disc (s : SocketId)
  | offerOp (s : SocketId) (d : RelayData)
  | answerOp (s : SocketId) (d : RelayData)
  | iceOp (s : SocketId) (d : RelayData)
  | chatOp (s : SocketId) (d : ChatData) (now : Nat)
  deriving DecidableEq, Repr

def applyOp (σ : ServerState) : Op → ServerState × List Emission
  | .auth s d => authenticate s d σ
  | .join s d now => joinRoom s d now σ
  | .leave s roomId => leaveRoom s roomId σ
  | .disc s => disconnect s σ
  | .offerOp s d => offer s d σ
  | .answerOp s d => answer s d σ
  | .iceOp s d => iceCandidate s d σ
  | .chatOp s d now => chatMessage s d now σ

def step (σ : ServerState) (o : Op) : ServerState := (applyOp σ o).1

/-- The server state after a sequence of operations from startup. -/
def run (ops : List Op) : ServerState := ops.foldl step initState

/-- The participant keys (socket ids) of a directory room, `[]` when the
room is absent. -/
def roomParticipantIds (r : RoomId) (σ : ServerState) : List SocketId :=
  ((sfind? r σ.rooms).map (fun room => room.participants.map Prod.fst)).getD []

theorem authenticate_fst (s : SocketId) (d : AuthData) (σ : ServerState) :
    (authenticate s d σ).1 =
      {σ with userSockets :=
        sinsert s ⟨d.userId, d.userName, d.role, d.roomId⟩ σ.userSockets} :=
  rfl

theorem offer_fst (s : SocketId) (d : RelayData) (σ : ServerState) :
    (offer s d σ).1 = σ := by
  unfold offer
  cases sfind? d.roomId σ.rooms <;> rfl

theorem answer_fst (s : SocketId) (d : RelayData) (σ : ServerState) :
    (answer s d σ).1 = σ := by
  unfold answer
  cases sfind? d.roomId σ.rooms <;> rfl

theorem iceCandidate_fst (s : SocketId) (d : RelayData) (σ : ServerState) :
    (iceCandidate s d σ).1 = σ := by
  unfold iceCandidate
  cases sfind? d.roomId σ.rooms <;> rfl

theorem chatMessage_fst (s : SocketId) (d : ChatData) (now : Nat)
    (σ : ServerState) : (chatMessage s d now σ).1 = σ := by
  unfold chatMessage
  cases sfind? s σ.userSockets <;> rfl

theorem joinRoom_eq (s : SocketId) (d : JoinData) (now : Nat)
    (σ : ServerState) : joinRoom s d now σ =
    (⟨sinsert d.roomId
        {(sfind? d.roomId σ.rooms).getD ⟨[], now, defaultEncryption⟩ with
          participants := sinsert s ⟨s, d.userId, d.userName, d.role, now⟩
            ((sfind? d.roomId σ.rooms).getD
              ⟨[], now, defaultEncryption⟩).participants}
        σ.rooms,
      sinsert s ⟨some d.userId, some d.userName, some d.role, some d.roomId⟩
        σ.userSockets,
      sioJoin d.roomId s σ.sio⟩,
     (exceptSelf s (sioMembers d.roomId (sioJoin d.roomId s σ.sio))).map
         (fun x => (x, Event.userJoined s d.userId d.userName d.role))
       ++ [(s, Event.roomJoined d.roomId
              (((sinsert s ⟨s, d.userId, d.userName, d.role, now⟩
                  ((sfind? d.roomId σ.rooms).getD
                    ⟨[], now, defaultEncryption⟩).participants).map
                  Prod.snd).filter (fun p => p.socketId ≠ s))
              ((sfind? d.roomId σ.rooms).getD
                ⟨[], now, defaultEncryption⟩).encryption)]) :=
  rfl

theorem handleLeaveRoom_none {s : SocketId} {roomId : RoomId}
    {σ : ServerState} (h : sfind? roomId σ.rooms = none) :
    handleLeaveRoom s roomId σ = (σ, []) := by
  unfold handleLeaveRoom
  rw [h]

theorem handleLeaveRoom_some {s : SocketId} {roomId : RoomId}
    {σ : ServerState} {room : Room}
    (h : sfind? roomId σ.rooms = some room) :
    handleLeaveRoom s roomId σ =
      (⟨if serase s room.participants = [] then serase roomId σ.rooms
          else sinsert roomId
            {room with participants := serase s room.participants} σ.rooms,
        σ.userSockets, sioLeave roomId s σ.sio⟩,
       (exceptSelf s (sioMembers roomId (sioLeave roomId s σ.sio))).map
         (fun x => (x, Event.userLeft s
           ((sfind? s σ.userSockets).bind UserInfo.userId)
           ((sfind? s σ.userSockets).bind UserInfo.userName)))) := by
  unfold handleLeaveRoom
  rw [h]

theorem disconnect_not_registered {s : SocketId} {σ : ServerState}
    (h : sfind? s σ.userSockets = none) :
    disconnect s σ =
      ({σ with
          sio := sioPurge s σ.sio,
          userSockets := serase s σ.userSockets}, []) := by
  unfold disconnect
  simp only [h]

theorem disconnect_no_room {s : SocketId} {σ : ServerState}
    {info : UserInfo} (h : sfind? s σ.userSockets = some info)
    (hr : info.roomId = none) :
    disconnect s σ =
      ({σ with
          sio := sioPurge s σ.sio,
          userSockets := serase s σ.userSockets}, []) := by
  unfold disconnect
  simp only [h, hr]

theorem disconnect_room {s : SocketId} {σ : ServerState}
    {info : UserInfo} {r : RoomId} (h : sfind? s σ.userSockets = some info)
    (hr : info.roomId = some r) :
    disconnect s σ =
      ({(handleLeaveRoom s r {σ with sio := sioPurge s σ.sio}).1 with
          userSockets := serase s
            (handleLeaveRoom s r {σ with sio := sioPurge s σ.sio}).1.userSockets},
       (handleLeaveRoom s r {σ with sio := sioPurge s σ.sio}).2) := by
  unfold disconnect
  simp only [h, hr]

theorem chatMessage_none {s : SocketId} {σ : ServerState}
    (d : ChatData) (now : Nat) (h : sfind? s σ.userSockets = none) :
    chatMessage s d now σ =
      (σ, [(s, Event.errorMsg "Not authenticated")]) := by
  unfold chatMessage
  rw [h]

theorem chatMessage_some {s : SocketId} {σ : ServerState}
    {info : UserInfo} (d : ChatData) (now : Nat)
    (h : sfind? s σ.userSockets = some info) :
    chatMessage s d now σ =
      (σ, (sioMembers d.roomId σ.sio).map (fun x =>
        (x, Event.chatMsg s info.userId info.userName d.message
              d.encrypted (d.timestamp.getD now)))) := by
  unfold chatMessage
  rw [h]

theorem sioLeave_of_not_mem {r : RoomId} {s : SocketId}
    {l : List (RoomId × SocketId)} (h : (r, s) ∉ l) :
    sioLeave r s l = l := by
  induction l with
  | nil => rfl
  | cons q rest ih =>
    have hq : ¬(q.1 = r ∧ q.2 = s) := by
      intro ⟨h1, h2⟩
      apply h
      have : q = (r, s) := by
        obtain ⟨q1, q2⟩ := q
        simp at h1 h2
        simp [h1, h2]
      simp [← this]
    simp [sioLeave, hq, ih (fun hm => h (List.mem_cons_of_mem _ hm))]

theorem sioPurge_of_forall_ne {s : SocketId}
    {l : List (RoomId × SocketId)} (h : ∀ p ∈ l, p.2 ≠ s) :
    sioPurge s l = l := by
  induction l with
  | nil => rfl
  | cons q rest ih =>
    simp [sioPurge, h q (List.mem_cons_self _ _),
      ih (fun p hp => h p (List.mem_cons_of_mem _ hp))]

theorem sioLeave_sioPurge (r : RoomId) (s : SocketId)
    (l : List (RoomId × SocketId)) :
    sioLeave r s (sioPurge s l) = sioPurge s l := by
  apply sioLeave_of_not_mem
  intro hmem
  exact (mem_sioPurge hmem).2 rfl

theorem sioMembers_sioPurge (r : RoomId) (s : SocketId)
    (l : List (RoomId × SocketId)) :
    sioMembers r (sioPurge s l) = exceptSelf s (sioMembers r l) := by
  induction l with
  | nil => rfl
  | cons q rest ih =>
    by_cases hs : q.2 = s
    · by_cases hr : q.1 = r
      · simp [sioPurge, sioMembers, exceptSelf, hs, hr, ih]
      · simp [sioPurge, sioMembers, hs, hr, ih]
    · by_cases hr : q.1 = r
      · simp [sioPurge, sioMembers, exceptSelf, hs, hr, ih]
      · simp [sioPurge, sioMembers, hs, hr, ih]

theorem sioMembers_sioLeave (r : RoomId) (s : SocketId)
    (l : List (RoomId × SocketId)) :
    sioMembers r (sioLeave r s l) = exceptSelf s (sioMembers r l) := by
  induction l with
  | nil => rfl
  | cons q rest ih =>
    by_cases hq : q.1 = r ∧ q.2 = s
    · simp [sioLeave, sioMembers, exceptSelf, hq, hq.1, hq.2, ih]
    · by_cases hr : q.1 = r
      · have hs : ¬ q.2 = s := fun h2 => hq ⟨hr, h2⟩
        simp [sioLeave, sioMembers, exceptSelf, hq, hr, hs, ih]
      · simp [sioLeave, sioMembers, hq, hr, ih]

theorem exceptSelf_idem (s : SocketId) (l : List SocketId) :
    exceptSelf s (exceptSelf s l) = exceptSelf s l := by
  apply exceptSelf_of_not_mem
  intro hmem
  exact (mem_exceptSelf.mp hmem).2 rfl

theorem sioMembers_append (r : RoomId) (l m : List (RoomId × SocketId)) :
    sioMembers r (l ++ m) = sioMembers r l ++ sioMembers r m := by
  induction l with
  | nil => rfl
  | cons q rest ih =>
    by_cases hr : q.1 = r <;> simp [sioMembers, hr, ih]

theorem exceptSelf_append (s : SocketId) (l m : List SocketId) :
    exceptSelf s (l ++ m) = exceptSelf s l ++ exceptSelf s m := by
  induction l with
  | nil => rfl
  | cons y rest ih =>
    by_cases hy : y = s <;> simp [exceptSelf, hy, ih]

theorem countOcc_map_pair (x : SocketId) (ev : Event)
    (xs : List SocketId) :
    countOcc (x, ev) (xs.map (fun y => (y, ev))) = countOcc x xs := by
  induction xs with
  | nil => rfl
  | cons y rest ih =>
    by_cases hy : y = x
    · simp [countOcc, hy, ih]
    · simp [countOcc, hy, ih, Prod.ext_iff]

theorem eq_singleton_of_keys_eq {β : Type} {P : List (Nat × β)} {s : Nat}
    (h : P.map Prod.fst = [s]) : ∃ m, P = [(s, m)] := by
  cases P with
  | nil => simp at h
  | cons p rest =>
    cases rest with
    | nil =>
      obtain ⟨k, v⟩ := p
      have hk : k = s := by simpa using h
      exact ⟨v, by rw [hk]⟩
    | cons q rest2 => simp at h

theorem filter_records_ne {c : SocketId} {ms : List MemberRecord}
    (h : ∀ m ∈ ms, m.socketId ≠ c) :
    ms.filter (fun p => p.socketId ≠ c) = ms := by
  induction ms with
  | nil => rfl
  | cons m rest ih =>
    simp [List.filter, h m (List.mem_cons_self _ _)]
    intro a ha
    exact h a (List.mem_cons_of_mem _ ha)

/-- Structural invariants of the signaling state, holding in every
state reachable from startup:
* rooms in the directory have a non-empty member map;
* a socket in a framework room has a member record in the directory
  room of the same id (so framework rooms of directory-absent ids are
  empty);
* the framework membership relation has no duplicate pairs;
* the `socketId` field of a member record equals its key;
* a socket in a framework room has a registry entry. -/
structure Inv (σ : ServerState) : Prop where
  rooms_nonempty : ∀ r room, sfind? r σ.rooms = some room →
    room.participants ≠ []
  sio_sub : ∀ r x, (r, x) ∈ σ.sio → ∃ room,
    sfind? r σ.rooms = some room ∧ (sfind? x room.participants).isSome
  sio_nodup : σ.sio.Nodup
  member_socketId : ∀ r room k m, sfind? r σ.rooms = some room →
    (k, m) ∈ room.participants → m.socketId = k
  sio_registered : ∀ r x, (r, x) ∈ σ.sio →
    (sfind? x σ.userSockets).isSome

theorem inv_initState : Inv initState := by
  refine ⟨?_, ?_, ?_, ?_, ?_⟩
  · intro r room h
    simp [initState, sfind?] at h
  · intro r x h
    simp [initState] at h
  · simp [initState]
  · intro r room k m h
    simp [initState, sfind?] at h
  · intro r x h
    simp [initState] at h

theorem inv_authenticate (s : SocketId) (d : AuthData) {σ : ServerState}
    (hI : Inv σ) : Inv (authenticate s d σ).1 := by
  rw [authenticate_fst]
  refine ⟨hI.rooms_nonempty, hI.sio_sub, hI.sio_nodup,
    hI.member_socketId, ?_⟩
  intro r x h
  have hx := hI.sio_registered r x h
  rw [sfind?_sinsert]
  by_cases hsx : s = x <;> simp [hsx, hx]

theorem inv_joinRoom (s : SocketId) (d : JoinData) (now : Nat)
    {σ : ServerState} (hI : Inv σ) : Inv (joinRoom s d now σ).1 := by
  rw [joinRoom_eq]
  refine ⟨?_, ?_, ?_, ?_, ?_⟩
  · intro r room h
    rw [sfind?_sinsert] at h
    by_cases hr : d.roomId = r
    · simp only [hr, if_pos rfl] at h
      cases h.symm
      exact sinsert_ne_nil _ _ _
    · exact hI.rooms_nonempty r room (by simpa [hr] using h)
  · intro r x h
    rcases mem_sioJoin h with h1 | h1
    · obtain ⟨room, hroom, hx⟩ := hI.sio_sub r x h1
      by_cases hr : d.roomId = r
      · subst hr
        refine ⟨_, sfind?_sinsert_self _ _ _, ?_⟩
        simp only [hroom, Option.getD_some]
        rw [sfind?_sinsert]
        by_cases hsx : s = x <;> simp [hsx, hx]
      · exact ⟨room, by rw [sfind?_sinsert]; simpa [hr] using hroom, hx⟩
    · have hr : r = d.roomId := congrArg Prod.fst h1
      have hx2 : x = s := congrArg Prod.snd h1
      subst hr
      subst hx2
      refine ⟨_, sfind?_sinsert_self _ _ _, ?_⟩
      simp [sfind?_sinsert_self]
  · exact sioJoin_nodup _ _ hI.sio_nodup
  · intro r room k m h hm
    rw [sfind?_sinsert] at h
    by_cases hr : d.roomId = r
    · subst hr
      rw [if_pos rfl] at h
      cases h.symm
      rcases mem_sinsert hm with h1 | h1
      · cases h1
        rfl
      · cases hroom : sfind? d.roomId σ.rooms with
        | none =>
          rw [hroom] at h1
          simp at h1
        | some room₀ =>
          rw [hroom] at h1
          exact hI.member_socketId d.roomId room₀ k m hroom
            (by simpa using h1)
    · exact hI.member_socketId r room k m (by simpa [hr] using h) hm
  · intro r x h
    rw [sfind?_sinsert]
    by_cases hsx : s = x
    · simp [hsx]
    · rcases mem_sioJoin h with h1 | h1
      · simpa [hsx] using hI.sio_registered r x h1
      · exact absurd (congrArg Prod.snd h1) (fun hx => hsx hx.symm)

theorem inv_handleLeaveRoom (s : SocketId) (roomId : RoomId)
    {σ : ServerState} (hI : Inv σ) : Inv (handleLeaveRoom s roomId σ).1 := by
  cases hroom : sfind? roomId σ.rooms with
  | none =>
    rw [handleLeaveRoom_none hroom]
    exact hI
  | some room =>
    rw [handleLeaveRoom_some hroom]
    refine ⟨?_, ?_, ?_, ?_, ?_⟩
    · intro r room' h
      by_cases hp : serase s room.participants = []
      · rw [if_pos hp, sfind?_serase] at h
        by_cases hr : roomId = r
        · simp [hr] at h
        · exact hI.rooms_nonempty r room' (by simpa [hr] using h)
      · rw [if_neg hp, sfind?_sinsert] at h
        by_cases hr : roomId = r
        · simp only [hr, if_pos rfl] at h
          cases h.symm
          exact hp
        · exact hI.rooms_nonempty r room' (by simpa [hr] using h)
    · intro r x h
      obtain ⟨hmem, hne⟩ := mem_sioLeave h
      obtain ⟨room', hroom', hx⟩ := hI.sio_sub r x hmem
      by_cases hr : roomId = r
      · subst hr
        have hxs : x ≠ s := by
          intro hxs
          exact hne ⟨rfl, hxs⟩
        have hroomeq : room = room' := by
          rw [hroom] at hroom'
          exact Option.some.injEq _ _ ▸ hroom'
        subst hroomeq
        have hx' : (sfind? x (serase s room.participants)).isSome := by
          rw [sfind?_serase, if_neg (fun h' : s = x => hxs h'.symm)]
          exact hx
        have hp : serase s room.participants ≠ [] := by
          intro hp
          rw [hp] at hx'
          simp [sfind?] at hx'
        refine ⟨{room with participants := serase s room.participants},
          ?_, hx'⟩
        rw [if_neg hp]
        exact sfind?_sinsert_self _ _ _
      · obtain ⟨hmem2, _⟩ := mem_sioLeave h
        refine ⟨room', ?_, hx⟩
        by_cases hp : serase s room.participants = []
        · rw [if_pos hp, sfind?_serase]
          simpa [hr] using hroom'
        · rw [if_neg hp, sfind?_sinsert]
          simpa [hr] using hroom'
    · exact (sioLeave_sublist _ _ _).nodup hI.sio_nodup
    · intro r room' k m h hm
      by_cases hp : serase s room.participants = []
      · rw [if_pos hp, sfind?_serase] at h
        by_cases hr : roomId = r
        · simp [hr] at h
        · exact hI.member_socketId r room' k m (by simpa [hr] using h) hm
      · rw [if_neg hp, sfind?_sinsert] at h
        by_cases hr : roomId = r
        · simp only [hr, if_pos rfl] at h
          cases h.symm
          exact hI.member_socketId r room k m (hr ▸ hroom)
            (mem_serase hm).1
        · exact hI.member_socketId r room' k m (by simpa [hr] using h) hm
    · intro r x h
      exact hI.sio_registered r x (mem_sioLeave h).1

theorem inv_sioPurge (s : SocketId) {σ : ServerState} (hI : Inv σ) :
    Inv {σ with sio := sioPurge s σ.sio} := by
  refine ⟨hI.rooms_nonempty, ?_, ?_, hI.member_socketId, ?_⟩
  · intro r x h
    exact hI.sio_sub r x (mem_sioPurge h).1
  · exact (sioPurge_sublist _ _).nodup hI.sio_nodup
  · intro r x h
    exact hI.sio_registered r x (mem_sioPurge h).1

theorem inv_erase_registry (s : SocketId) {σ : ServerState} (hI : Inv σ)
    (hout : ∀ r, (r, s) ∉ σ.sio) :
    Inv {σ with userSockets := serase s σ.userSockets} := by
  refine ⟨hI.rooms_nonempty, hI.sio_sub, hI.sio_nodup,
    hI.member_socketId, ?_⟩
  intro r x h
  have hxs : x ≠ s := by
    intro hxs
    exact hout r (hxs ▸ h)
  rw [sfind?_serase, if_neg (fun h' : s = x => hxs h'.symm)]
  exact hI.sio_registered r x h

theorem inv_disconnect (s : SocketId) {σ : ServerState} (hI : Inv σ) :
    Inv (disconnect s σ).1 := by
  have hpurged : ∀ σ' : ServerState,
      (∀ p : RoomId × SocketId, p ∈ σ'.sio → p ∈ sioPurge s σ.sio) →
      ∀ r, (r, s) ∉ σ'.sio := by
    intro σ' hsub r hmem
    exact (mem_sioPurge (hsub _ hmem)).2 rfl
  cases hreg : sfind? s σ.userSockets with
  | none =>
    rw [disconnect_not_registered hreg]
    exact inv_erase_registry s (inv_sioPurge s hI)
      (fun r hmem => (mem_sioPurge hmem).2 rfl)
  | some info =>
    cases hroom : info.roomId with
    | none =>
      rw [disconnect_no_room hreg hroom]
      exact inv_erase_registry s (inv_sioPurge s hI)
        (fun r hmem => (mem_sioPurge hmem).2 rfl)
    | some r =>
      rw [disconnect_room hreg hroom]
      have hI₀ : Inv {σ with sio := sioPurge s σ.sio} := inv_sioPurge s hI
      have hI₁ := inv_handleLeaveRoom s r hI₀
      refine inv_erase_registry s hI₁ ?_
      intro r' hmem
      cases hroom2 : sfind? r ({σ with sio := sioPurge s σ.sio} :
          ServerState).rooms with
      | none =>
        rw [handleLeaveRoom_none hroom2] at hmem
        exact (mem_sioPurge hmem).2 rfl
      | some room =>
        rw [handleLeaveRoom_some hroom2] at hmem
        exact (mem_sioPurge (mem_sioLeave hmem).1).2 rfl

theorem inv_step {σ : ServerState} (o : Op) (hI : Inv σ) :
    Inv (step σ o) := by
  cases o with
  | auth s d => exact inv_authenticate s d hI
  | join s d now => exact inv_joinRoom s d now hI
  | leave s roomId => exact inv_handleLeaveRoom s roomId hI
  | disc s => exact inv_disconnect s hI
  | offerOp s d => simpa [step, applyOp, offer_fst] using hI
  | answerOp s d => simpa [step, applyOp, answer_fst] using hI
  | iceOp s d => simpa [step, applyOp, iceCandidate_fst] using hI
  | chatOp s d now => simpa [step, applyOp, chatMessage_fst] using hI

theorem inv_run (ops : List Op) : Inv (run ops) := by
  suffices h : ∀ σ, Inv σ → Inv (ops.foldl step σ) from
    h initState inv_initState
  induction ops with
  | nil => exact fun σ h => h
  | cons o rest ih => exact fun σ h => ih _ (inv_step o h)

/-- C6: for every `offer`, `answer`, or `ice-candidate` message naming
a target connection and a room id present in the directory, exactly
one event is emitted, it is addressed to the target connection only
(no other member of the room receives anything), and it is tagged with
the transport-level sender id — for every opaque payload, in
particular whatever sender identity the payload itself claims. -/
theorem C6_relay_isolation (s : SocketId) (d : RelayData)
    (σ : ServerState) (h : (sfind? d.roomId σ.rooms).isSome) :
    offer s d σ =
      (σ, [(d.targetSocketId, Event.offerMsg s d.payload d.roomId)]) ∧
    answer s d σ =
      (σ, [(d.targetSocketId, Event.answerMsg s d.payload d.roomId)]) ∧
    iceCandidate s d σ =
      (σ, [(d.targetSocketId,
            Event.iceCandidateMsg s d.payload d.roomId)]) := by
  cases hr : sfind? d.roomId σ.rooms with
  | none =>
    rw [hr] at h
    simp at h
  | some room =>
    refine ⟨?_, ?_, ?_⟩
    · unfold offer
      rw [hr]
    · unfold answer
      rw [hr]
    · unfold iceCandidate
      rw [hr]

/-- Witness for C6 at a concrete input: the payload claims sender 99,
yet the forwarded offer is tagged with the true sender 1 and goes only
to the target 2. -/
theorem C6_relay_isolation_witness :
    offer 1 ⟨5, ⟨some 99, 42⟩, 2⟩ (run [Op.join 3 ⟨5, 30, 30, 0⟩ 0]) =
      (run [Op.join 3 ⟨5, 30, 30, 0⟩ 0],
       [(2, Event.offerMsg 1 ⟨some 99, 42⟩ 5)]) :=
  (C6_relay_isolation 1 ⟨5, ⟨some 99, 42⟩, 2⟩
    (run [Op.join 3 ⟨5, 30, 30, 0⟩ 0]) (by decide)).1

/-- C9: re-joining a room the connection is already a member of is
idempotent on membership: the member map keeps the same key list
(hence the same member count, with a single entry for that connection
id), the rejoining connection's record is overwritten with the fresh
identity fields and join time, and every other member's record is
untouched. -/
theorem C9_rejoin_idempotent (s : SocketId) (d : JoinData) (now : Nat)
    (σ : ServerState) (room : Room) (oldRec : MemberRecord)
    (hroom : sfind? d.roomId σ.rooms = some room)
    (hmem : sfind? s room.participants = some oldRec) :
    ∃ room', sfind? d.roomId (joinRoom s d now σ).1.rooms = some room' ∧
      room'.participants.map Prod.fst = room.participants.map Prod.fst ∧
      room'.participants.length = room.participants.length ∧
      sfind? s room'.participants =
        some ⟨s, d.userId, d.userName, d.role, now⟩ ∧
      ∀ k, k ≠ s →
        sfind? k room'.participants = sfind? k room.participants := by
  rw [joinRoom_eq]
  refine ⟨_, sfind?_sinsert_self _ _ _, ?_, ?_, ?_, ?_⟩
  · simp only [hroom, Option.getD_some]
    exact keys_sinsert_of_sfind?_some _ hmem
  · simp only [hroom, Option.getD_some]
    exact length_sinsert_of_sfind?_some _ hmem
  · simp only [hroom, Option.getD_some]
    exact sfind?_sinsert_self _ _ _
  · intro k hk
    simp only [hroom, Option.getD_some]
    rw [sfind?_sinsert, if_neg (fun h => hk h.symm)]

/-- Witness for C9 at a concrete input: connection 1 rejoins room 7
(first joined with identity 100 at time 0, rejoining with identity 111
at time 5). -/
theorem C9_rejoin_idempotent_witness :
    ∃ room', sfind? 7 (joinRoom 1 ⟨7, 111, 112, 1⟩ 5
        (run [Op.join 1 ⟨7, 100, 100, 0⟩ 0])).1.rooms = some room' ∧
      room'.participants.map Prod.fst = [1] ∧
      room'.participants.length = 1 ∧
      sfind? 1 room'.participants = some ⟨1, 111, 112, 1, 5⟩ ∧
      ∀ k, k ≠ 1 → sfind? k room'.participants =
        sfind? k [(1, (⟨1, 100, 100, 0, 0⟩ : MemberRecord))] := by
  exact C9_rejoin_idempotent 1 ⟨7, 111, 112, 1⟩ 5
    (run [Op.join 1 ⟨7, 100, 100, 0⟩ 0])
    ⟨[(1, ⟨1, 100, 100, 0, 0⟩)], 0, defaultEncryption⟩
    ⟨1, 100, 100, 0, 0⟩ (by decide) (by decide)

/-- C10: the `authenticate` handler replaces the connection's whole
registry entry with exactly the four fields of its payload.  Hence for
a connection that joined room R and then authenticates with a payload
lacking `roomId`, the recorded room assignment becomes `undefined`, and
a subsequent disconnect emits nothing, changes no room, and leaves the
connection's member record inside R's member map. -/
theorem C10_authenticate_overwrites (s : SocketId) (d : JoinData)
    (a : AuthData) (now : Nat) (σ : ServerState)
    (hnone : a.roomId = none) :
    (authenticate s a σ).1.userSockets =
      sinsert s ⟨a.userId, a.userName, a.role, a.roomId⟩ σ.userSockets ∧
    sfind? s (authenticate s a (joinRoom s d now σ).1).1.userSockets =
      some ⟨a.userId, a.userName, a.role, none⟩ ∧
    (disconnect s (authenticate s a (joinRoom s d now σ).1).1).2 = [] ∧
    (disconnect s (authenticate s a (joinRoom s d now σ).1).1).1.rooms =
      (joinRoom s d now σ).1.rooms ∧
    ∃ room, sfind? d.roomId
        (disconnect s (authenticate s a (joinRoom s d now σ).1).1).1.rooms =
          some room ∧
      (sfind? s room.participants).isSome := by
  have hreg : sfind? s (authenticate s a (joinRoom s d now σ).1).1.userSockets
      = some ⟨a.userId, a.userName, a.role, a.roomId⟩ := by
    rw [authenticate_fst]
    exact sfind?_sinsert_self _ _ _
  have hinfo : (⟨a.userId, a.userName, a.role, a.roomId⟩ : UserInfo).roomId
      = none := hnone
  have hdisc := disconnect_no_room hreg hinfo
  have hrooms : (disconnect s (authenticate s a
      (joinRoom s d now σ).1).1).1.rooms = (joinRoom s d now σ).1.rooms := by
    rw [hdisc, authenticate_fst]
  refine ⟨authenticate_fst s a σ ▸ rfl, by rw [hreg, hnone], by rw [hdisc],
    hrooms, ?_⟩
  rw [hrooms, joinRoom_eq]
  refine ⟨_, sfind?_sinsert_self _ _ _, ?_⟩
  simp [sfind?_sinsert_self]

/-- Witness for C10 at a concrete input: connection 1 joins room 7,
authenticates without a room id, and disconnects; its member record in
room 7 survives and nothing is emitted. -/
theorem C10_authenticate_overwrites_witness :
    (authenticate 1 ⟨some 9, some 9, some 0, none⟩ initState).1.userSockets =
      sinsert 1 ⟨some 9, some 9, some 0, none⟩ initState.userSockets ∧
    sfind? 1 (authenticate 1 ⟨some 9, some 9, some 0, none⟩
        (joinRoom 1 ⟨7, 100, 100, 0⟩ 0 initState).1).1.userSockets =
      some ⟨some 9, some 9, some 0, none⟩ ∧
    (disconnect 1 (authenticate 1 ⟨some 9, some 9, some 0, none⟩
        (joinRoom 1 ⟨7, 100, 100, 0⟩ 0 initState).1).1).2 = [] ∧
    (disconnect 1 (authenticate 1 ⟨some 9, some 9, some 0, none⟩
        (joinRoom 1 ⟨7, 100, 100, 0⟩ 0 initState).1).1).1.rooms =
      (joinRoom 1 ⟨7, 100, 100, 0⟩ 0 initState).1.rooms ∧
    ∃ room, sfind? 7 (disconnect 1 (authenticate 1
        ⟨some 9, some 9, some 0, none⟩
        (joinRoom 1 ⟨7, 100, 100, 0⟩ 0 initState).1).1).1.rooms =
          some room ∧
      (sfind? 1 room.participants).isSome :=
  C10_authenticate_overwrites 1 ⟨7, 100, 100, 0⟩
    ⟨some 9, some 9, some 0, none⟩ 0 initState rfl

/-- C3 counterexample: connection 1 joins room 7 and then leaves it via
`leave-room`; afterwards its registry entry still records room 7 as the
current room assignment, refuting the claim that the assignment is
cleared. -/
theorem C3_cex_registry_not_cleared :
    sfind? 1 ((leaveRoom 1 7
        (run [Op.join 1 ⟨7, 100, 100, 0⟩ 0])).1).userSockets =
      some ⟨some 100, some 100, some 0, some 7⟩ := by
  decide

/-- C3 amended: `leave-room` leaves the connection registry entirely
unchanged — in particular the leaver's entry, when present, still
records the left room as its current room assignment. -/
theorem C3_leave_keeps_registry (s : SocketId) (roomId : RoomId)
    (σ : ServerState) :
    (leaveRoom s roomId σ).1.userSockets = σ.userSockets := by
  unfold leaveRoom
  cases hroom : sfind? roomId σ.rooms with
  | none => rw [handleLeaveRoom_none hroom]
  | some room => rw [handleLeaveRoom_some hroom]

/-- C2 counterexample: the authenticated connection 1 sends a
`chat-message` for room 5, which is absent from the directory; the
server emits nothing at all — in particular no error response to the
sender — refuting the claim that every relayed message type (including
`chat-message`) yields an error for an unknown room. -/
theorem C2_cex_chat_unknown_room_no_error :
    sfind? 5 (run [Op.auth 1 ⟨some 9, some 9, some 0, none⟩]).rooms =
      none ∧
    (chatMessage 1 ⟨5, 77, true, none⟩ 0
      (run [Op.auth 1 ⟨some 9, some 9, some 0, none⟩])).2 = [] := by
  constructor
  · decide
  · decide

/-- C2 amended: in any reachable state, an `offer`, `answer`, or
`ice-candidate` naming a directory-absent room yields exactly an error
response to the sender with no other delivery and no state change.  A
`chat-message` naming a directory-absent room likewise delivers
nothing and changes no state, but the sender receives an error only
when unauthenticated; an authenticated sender receives no response at
all. -/
theorem C2_unknown_room (ops : List Op) (s : SocketId) (rid : RoomId)
    (pl : SignalPayload) (t : SocketId) (m : Nat) (enc : Bool)
    (ts : Option Nat) (now : Nat)
    (h : sfind? rid (run ops).rooms = none) :
    offer s ⟨rid, pl, t⟩ (run ops) =
      (run ops, [(s, Event.errorMsg "Room not found")]) ∧
    answer s ⟨rid, pl, t⟩ (run ops) =
      (run ops, [(s, Event.errorMsg "Room not found")]) ∧
    iceCandidate s ⟨rid, pl, t⟩ (run ops) =
      (run ops, [(s, Event.errorMsg "Room not found")]) ∧
    ((sfind? s (run ops).userSockets).isSome →
      chatMessage s ⟨rid, m, enc, ts⟩ now (run ops) = (run ops, [])) ∧
    (sfind? s (run ops).userSockets = none →
      chatMessage s ⟨rid, m, enc, ts⟩ now (run ops) =
        (run ops, [(s, Event.errorMsg "Not authenticated")])) := by
  have hI := inv_run ops
  have hsio : sioMembers rid (run ops).sio = [] := by
    apply sioMembers_eq_nil
    intro x hmem
    obtain ⟨room, hroom, _⟩ := hI.sio_sub rid x hmem
    rw [h] at hroom
    exact Option.noConfusion hroom
  refine ⟨?_, ?_, ?_, ?_, ?_⟩
  · unfold offer
    rw [show (⟨rid, pl, t⟩ : RelayData).roomId = rid from rfl, h]
  · unfold answer
    rw [show (⟨rid, pl, t⟩ : RelayData).roomId = rid from rfl, h]
  · unfold iceCandidate
    rw [show (⟨rid, pl, t⟩ : RelayData).roomId = rid from rfl, h]
  · intro hs
    cases hreg : sfind? s (run ops).userSockets with
    | none =>
      rw [hreg] at hs
      simp at hs
    | some info =>
      rw [chatMessage_some _ _ hreg,
        show (⟨rid, m, enc, ts⟩ : ChatData).roomId = rid from rfl, hsio]
      rfl
  · intro hreg
    exact chatMessage_none _ _ hreg

/-- Witness for C2 at concrete inputs: room 5 does not exist in the
startup state; the three point-to-point messages get the error reply
and the chat from the unregistered connection 1 gets the
authentication error. -/
theorem C2_unknown_room_witness :
    offer 1 ⟨5, ⟨none, 3⟩, 2⟩ (run []) =
      (run [], [(1, Event.errorMsg "Room not found")]) ∧
    answer 1 ⟨5, ⟨none, 3⟩, 2⟩ (run []) =
      (run [], [(1, Event.errorMsg "Room not found")]) ∧
    iceCandidate 1 ⟨5, ⟨none, 3⟩, 2⟩ (run []) =
      (run [], [(1, Event.errorMsg "Room not found")]) ∧
    ((sfind? 1 (run []).userSockets).isSome →
      chatMessage 1 ⟨5, 7, true, none⟩ 0 (run []) = (run [], [])) ∧
    (sfind? 1 (run []).userSockets = none →
      chatMessage 1 ⟨5, 7, true, none⟩ 0 (run []) =
        (run [], [(1, Event.errorMsg "Not authenticated")])) :=
  C2_unknown_room [] 1 5 ⟨none, 3⟩ 2 7 true none 0 (by decide)

/-- C8 counterexample: connection 2, which never joined room 7, sends
`leave-room` for it while connection 1 is a member; member 1 receives
a spurious `user-left` notification for 2, refuting the claim that
leaving a room one is not a member of delivers no notification to any
connection. -/
theorem C8_cex_nonmember_leave_notifies :
    (leaveRoom 2 7 (run [Op.join 1 ⟨7, 100, 100, 0⟩ 0])).2 =
      [(1, Event.userLeft 2 none none)] := by
  decide

/-- C8 amended: in any reachable state, leaving a directory-absent
room and disconnecting a connection with no recorded room assignment
are complete no-ops treated as success (no error, nothing delivered,
rooms directory unchanged); leaving an existing room one is not a
member of reports no error and changes no state, but every socket in
that room's transport group receives a spurious `user-left`
notification for the non-member. -/
theorem C8_noop_conditions (ops : List Op) (s : SocketId) (r : RoomId) :
    (sfind? r (run ops).rooms = none →
      leaveRoom s r (run ops) = (run ops, [])) ∧
    (∀ room, sfind? r (run ops).rooms = some room →
      sfind? s room.participants = none →
      (leaveRoom s r (run ops)).1 = run ops ∧
      (leaveRoom s r (run ops)).2 =
        (sioMembers r (run ops).sio).map (fun x =>
          (x, Event.userLeft s
            ((sfind? s (run ops).userSockets).bind UserInfo.userId)
            ((sfind? s (run ops).userSockets).bind UserInfo.userName)))) ∧
    (∀ info, sfind? s (run ops).userSockets = some info →
      info.roomId = none →
      (disconnect s (run ops)).2 = [] ∧
      (disconnect s (run ops)).1.rooms = (run ops).rooms) := by
  have hI := inv_run ops
  refine ⟨?_, ?_, ?_⟩
  · intro h
    unfold leaveRoom
    rw [handleLeaveRoom_none h]
  · intro room hroom hnotmem
    have hnosio : (r, s) ∉ (run ops).sio := by
      intro hmem
      obtain ⟨room', hroom', hsome⟩ := hI.sio_sub r s hmem
      rw [hroom] at hroom'
      have : room = room' := Option.some.injEq _ _ ▸ hroom'
      rw [← this, hnotmem] at hsome
      simp at hsome
    have hleave : sioLeave r s (run ops).sio = (run ops).sio :=
      sioLeave_of_not_mem hnosio
    have hnomem : s ∉ sioMembers r (run ops).sio := by
      intro hmem
      exact hnosio (mem_sioMembers.mp hmem)
    have herase : serase s room.participants = room.participants :=
      serase_of_sfind?_none hnotmem
    have hne : room.participants ≠ [] := hI.rooms_nonempty r room hroom
    unfold leaveRoom
    rw [handleLeaveRoom_some hroom, herase, if_neg hne, hleave,
      exceptSelf_of_not_mem hnomem]
    constructor
    · show (⟨sinsert r {room with participants := room.participants}
        (run ops).rooms, (run ops).userSockets, (run ops).sio⟩ :
          ServerState) = run ops
      rw [show ({room with participants := room.participants} : Room)
        = room from rfl, sinsert_of_sfind?_some hroom]
    · rfl
  · intro info hreg hnone
    rw [disconnect_no_room hreg hnone]
    exact ⟨rfl, rfl⟩

/-- Witness for C8 at concrete inputs: leaving the nonexistent room 5,
the non-member connection 2 leaving room 9 (state unchanged), and
disconnecting the authenticated connection 3 that has no room
assignment (nothing emitted). -/
theorem C8_noop_conditions_witness :
    leaveRoom 1 5 (run []) = (run [], []) ∧
    (leaveRoom 2 9 (run [Op.join 1 ⟨9, 100, 100, 0⟩ 0])).1 =
      run [Op.join 1 ⟨9, 100, 100, 0⟩ 0] ∧
    (disconnect 3 (run [Op.auth 3 ⟨some 1, some 1, some 0, none⟩])).2 =
      [] := by
  refine ⟨(C8_noop_conditions [] 1 5).1 (by decide), ?_, ?_⟩
  · exact ((C8_noop_conditions [Op.join 1 ⟨9, 100, 100, 0⟩ 0] 2 9).2.1
      ⟨[(1, ⟨1, 100, 100, 0, 0⟩)], 0, defaultEncryption⟩
      (by decide) (by decide)).1
  · exact ((C8_noop_conditions [Op.auth 3 ⟨some 1, some 1, some 0, none⟩]
      3 9).2.2 ⟨some 1, some 1, some 0, none⟩ (by decide) rfl).1

/-- C1 counterexample: connection 1 joins room 10 (becoming its sole
member), then joins room 20 — which overwrites its recorded room
assignment — and disconnects.  The disconnect cleans up room 20 only,
so room 10 is still present in the directory although its last member
has disconnected, refuting the claim's "in particular" clause.  (Only
join-room and disconnect operations are used, within the claim's
vocabulary.) -/
theorem C1_cex_stale_room_after_disconnect :
    roomParticipantIds 10 (run [Op.join 1 ⟨10, 100, 100, 0⟩ 0,
        Op.join 1 ⟨20, 101, 101, 0⟩ 1]) = [1] ∧
    (sfind? 10 (run [Op.join 1 ⟨10, 100, 100, 0⟩ 0,
        Op.join 1 ⟨20, 101, 101, 0⟩ 1, Op.disc 1]).rooms).isSome := by
  constructor
  · decide
  · decide

/-- C1 amended: for every operation sequence from the empty state (in
particular every join-room/leave-room/disconnect sequence), a room id
is present in the directory iff its participant map is non-empty.
After the last member of a room leaves via `leave-room` naming that
room, the room id is absent; likewise after it disconnects while that
room is its registry-recorded assignment.  (A connection that joined a
further room disconnects without cleaning the earlier one, whose stale
sole entry keeps it present.) -/
theorem C1_room_lifecycle (ops : List Op) (r : RoomId) (s : SocketId) :
    ((sfind? r (run ops).rooms).isSome ↔
      roomParticipantIds r (run ops) ≠ []) ∧
    (roomParticipantIds r (run ops) = [s] →
      sfind? r (leaveRoom s r (run ops)).1.rooms = none) ∧
    (∀ info, sfind? s (run ops).userSockets = some info →
      info.roomId = some r → roomParticipantIds r (run ops) = [s] →
      sfind? r (disconnect s (run ops)).1.rooms = none) := by
  have hI := inv_run ops
  have hlast : ∀ σ' : ServerState, σ'.rooms = (run ops).rooms →
      roomParticipantIds r (run ops) = [s] →
      sfind? r (handleLeaveRoom s r σ').1.rooms = none := by
    intro σ' heq hone
    cases hroom : sfind? r σ'.rooms with
    | none =>
      rw [handleLeaveRoom_none hroom]
      exact hroom
    | some room =>
      have hkeys : room.participants.map Prod.fst = [s] := by
        unfold roomParticipantIds at hone
        rw [← heq, hroom] at hone
        simpa using hone
      obtain ⟨m, hm⟩ := eq_singleton_of_keys_eq hkeys
      have hempty : serase s room.participants = [] := by
        rw [hm]
        simp [serase]
      rw [handleLeaveRoom_some hroom, hempty, if_pos rfl]
      exact sfind?_serase_self _ _
  refine ⟨?_, ?_, ?_⟩
  · constructor
    · intro hsome
      cases hroom : sfind? r (run ops).rooms with
      | none =>
        rw [hroom] at hsome
        simp at hsome
      | some room =>
        intro hmap
        apply hI.rooms_nonempty r room hroom
        unfold roomParticipantIds at hmap
        rw [hroom] at hmap
        simpa using hmap
    · intro hne
      cases hroom : sfind? r (run ops).rooms with
      | none =>
        unfold roomParticipantIds at hne
        rw [hroom] at hne
        simp at hne
      | some room => simp
  · intro hone
    exact hlast (run ops) rfl hone
  · intro info hreg hrid hone
    rw [disconnect_room hreg hrid]
    exact hlast {run ops with sio := sioPurge s (run ops).sio} rfl hone

/-- Witness for C1 at concrete inputs: leaving room 7 as its sole
member 1 destroys it, and the sole member 2 of room 8 disconnecting
(with room 8 recorded) destroys room 8. -/
theorem C1_room_lifecycle_witness :
    sfind? 7 (leaveRoom 1 7
      (run [Op.join 1 ⟨7, 100, 100, 0⟩ 0])).1.rooms = none ∧
    sfind? 8 (disconnect 2
      (run [Op.join 2 ⟨8, 100, 100, 0⟩ 0])).1.rooms = none := by
  refine ⟨(C1_room_lifecycle [Op.join 1 ⟨7, 100, 100, 0⟩ 0] 7 1).2.1
    (by decide), ?_⟩
  exact (C1_room_lifecycle [Op.join 2 ⟨8, 100, 100, 0⟩ 0] 8 2).2.2
    ⟨some 100, some 100, some 0, some 8⟩ (by decide) rfl (by decide)

/-- C4 counterexample: connection 1 joined room 10, then joined room
20 and disconnected, leaving a stale member record in room 10;
connection 2 joined room 10 normally, so room 10's member set is
{1, 2}.  When connection 3 joins room 10, member 1 receives no event
at all — in particular not the `user-joined` the claim promises each
existing member exactly once. -/
theorem C4_cex_stale_member_not_notified :
    roomParticipantIds 10 (run [Op.join 1 ⟨10, 100, 100, 0⟩ 0,
        Op.join 1 ⟨20, 101, 101, 0⟩ 1, Op.disc 1,
        Op.join 2 ⟨10, 200, 200, 1⟩ 2]) = [1, 2] ∧
    ((joinRoom 3 ⟨10, 300, 300, 0⟩ 3
        (run [Op.join 1 ⟨10, 100, 100, 0⟩ 0,
          Op.join 1 ⟨20, 101, 101, 0⟩ 1, Op.disc 1,
          Op.join 2 ⟨10, 200, 200, 1⟩ 2])).2.filter
      (fun e => e.1 == 1)) = [] := by
  constructor
  · decide
  · decide

/-- C4 amended: in any reachable state, when connection C joins an
existing room it is not yet a member of, C's `room-joined` reply lists
exactly the prior members' records (never C itself) together with the
room's encryption record, and each prior member that is still in the
room's transport group receives exactly one `user-joined` event for C;
a stale member whose connection is gone receives none. -/
theorem C4_join_snapshot (ops : List Op) (c : SocketId) (d : JoinData)
    (now : Nat) (room : Room)
    (hroom : sfind? d.roomId (run ops).rooms = some room)
    (hnew : sfind? c room.participants = none) :
    (joinRoom c d now (run ops)).2 =
      (sioMembers d.roomId (run ops).sio).map
        (fun x => (x, Event.userJoined c d.userId d.userName d.role))
      ++ [(c, Event.roomJoined d.roomId (room.participants.map Prod.snd)
            room.encryption)] ∧
    (∀ x, countOcc (x, Event.userJoined c d.userId d.userName d.role)
        (joinRoom c d now (run ops)).2 =
      if (d.roomId, x) ∈ (run ops).sio then 1 else 0) := by
  have hI := inv_run ops
  have hcsio : (d.roomId, c) ∉ (run ops).sio := by
    intro hmem
    obtain ⟨room', hroom', hsome⟩ := hI.sio_sub d.roomId c hmem
    rw [hroom] at hroom'
    have : room = room' := Option.some.injEq _ _ ▸ hroom'
    rw [← this, hnew] at hsome
    simp at hsome
  have hcm : c ∉ sioMembers d.roomId (run ops).sio := by
    intro hmem
    exact hcsio (mem_sioMembers.mp hmem)
  have hjoin : sioJoin d.roomId c (run ops).sio =
      (run ops).sio ++ [(d.roomId, c)] := by
    unfold sioJoin
    rw [if_neg hcsio]
  have hrecip : exceptSelf c
      (sioMembers d.roomId (sioJoin d.roomId c (run ops).sio)) =
      sioMembers d.roomId (run ops).sio := by
    rw [hjoin, sioMembers_append, exceptSelf_append,
      exceptSelf_of_not_mem hcm]
    simp [sioMembers, exceptSelf]
  have hreply : ((sinsert c ⟨c, d.userId, d.userName, d.role, now⟩
        room.participants).map Prod.snd).filter
      (fun p => p.socketId ≠ c) = room.participants.map Prod.snd := by
    rw [sinsert_of_sfind?_none _ hnew, List.map_append,
      List.filter_append]
    have hall : ∀ m ∈ room.participants.map Prod.snd,
        m.socketId ≠ c := by
      intro m hm
      obtain ⟨⟨k, m'⟩, hmem, hsnd⟩ := List.mem_map.mp hm
      have hk := hI.member_socketId d.roomId room k m' hroom hmem
      have hkc : k ≠ c := by
        intro hkc
        exact not_mem_of_sfind?_none hnew (hkc ▸ hmem)
      rw [← hsnd]
      simpa [hk] using hkc
    rw [filter_records_ne hall]
    simp
  have hemit : (joinRoom c d now (run ops)).2 =
      (sioMembers d.roomId (run ops).sio).map
        (fun x => (x, Event.userJoined c d.userId d.userName d.role))
      ++ [(c, Event.roomJoined d.roomId (room.participants.map Prod.snd)
            room.encryption)] := by
    rw [joinRoom_eq]
    simp only [hroom, Option.getD_some]
    rw [hrecip, hreply]
  refine ⟨hemit, ?_⟩
  intro x
  rw [hemit, countOcc_append, countOcc_map_pair,
    countOcc_sioMembers _ _ hI.sio_nodup]
  have hzero : countOcc (x, Event.userJoined c d.userId d.userName d.role)
      [(c, Event.roomJoined d.roomId (room.participants.map Prod.snd)
        room.encryption)] = 0 := by
    simp [countOcc]
  rw [hzero, Nat.add_zero]

/-- Witness for C4 at concrete inputs: connection 2 joins room 7 whose
sole member is connection 1; the reply lists exactly 1's record, and
each live member receives exactly one `user-joined`. -/
theorem C4_join_snapshot_witness :
    (joinRoom 2 ⟨7, 200, 200, 1⟩ 5
        (run [Op.join 1 ⟨7, 100, 100, 0⟩ 0])).2 =
      (sioMembers 7 (run [Op.join 1 ⟨7, 100, 100, 0⟩ 0]).sio).map
        (fun x => (x, Event.userJoined 2 200 200 1))
      ++ [(2, Event.roomJoined 7
            ([(1, (⟨1, 100, 100, 0, 0⟩ : MemberRecord))].map Prod.snd)
            defaultEncryption)] ∧
    (∀ x, countOcc (x, Event.userJoined 2 200 200 1)
        (joinRoom 2 ⟨7, 200, 200, 1⟩ 5
          (run [Op.join 1 ⟨7, 100, 100, 0⟩ 0])).2 =
      if ((7 : RoomId), x) ∈ (run [Op.join 1 ⟨7, 100, 100, 0⟩ 0]).sio
        then 1 else 0) :=
  C4_join_snapshot [Op.join 1 ⟨7, 100, 100, 0⟩ 0] 2 ⟨7, 200, 200, 1⟩ 5
    ⟨[(1, ⟨1, 100, 100, 0, 0⟩)], 0, defaultEncryption⟩
    (by decide) (by decide)

/-- C7 counterexample: connection 1 joined room 10, then joined room
20 and disconnected, leaving a stale member record in room 10;
connections 2 and 3 joined room 10 normally, so room 10's member set
is {1, 2, 3}.  When member 2 sends a `chat-message` into room 10,
member 1 receives nothing, refuting the claim that the message is
delivered exactly once to each member. -/
theorem C7_cex_stale_member_misses_chat :
    roomParticipantIds 10 (run [Op.join 1 ⟨10, 100, 100, 0⟩ 0,
        Op.join 1 ⟨20, 101, 101, 0⟩ 1, Op.disc 1,
        Op.join 2 ⟨10, 200, 200, 1⟩ 2, Op.join 3 ⟨10, 300, 300, 0⟩ 3])
      = [1, 2, 3] ∧
    ((chatMessage 2 ⟨10, 55, true, none⟩ 9
        (run [Op.join 1 ⟨10, 100, 100, 0⟩ 0,
          Op.join 1 ⟨20, 101, 101, 0⟩ 1, Op.disc 1,
          Op.join 2 ⟨10, 200, 200, 1⟩ 2,
          Op.join 3 ⟨10, 300, 300, 0⟩ 3])).2.filter
      (fun e => e.1 == 1)) = [] := by
  constructor
  · decide
  · decide

/-- C7 amended: in any reachable state, a `chat-message` sent by a
connection that is in the room's transport group (in particular by any
live member) changes no state and is delivered exactly once to every
socket in that group — the sender included — and to no one else; a
stale member whose connection is gone receives nothing. -/
theorem C7_chat_broadcast (ops : List Op) (s : SocketId) (d : ChatData)
    (now : Nat) (hs : (d.roomId, s) ∈ (run ops).sio) :
    ∃ info, sfind? s (run ops).userSockets = some info ∧
      (chatMessage s d now (run ops)).1 = run ops ∧
      ∀ x, countOcc (x, Event.chatMsg s info.userId info.userName
            d.message d.encrypted (d.timestamp.getD now))
          (chatMessage s d now (run ops)).2 =
        if (d.roomId, x) ∈ (run ops).sio then 1 else 0 := by
  have hI := inv_run ops
  have hreg := hI.sio_registered _ _ hs
  cases hfind : sfind? s (run ops).userSockets with
  | none =>
    rw [hfind] at hreg
    simp at hreg
  | some info =>
    refine ⟨info, rfl, chatMessage_fst _ _ _ _, ?_⟩
    intro x
    rw [chatMessage_some _ _ hfind]
    show countOcc _ ((sioMembers d.roomId (run ops).sio).map _) = _
    rw [countOcc_map_pair, countOcc_sioMembers _ _ hI.sio_nodup]

/-- Witness for C7 at concrete inputs: members 1 and 2 of room 7, with
1 sending a chat; each of 1 and 2 receives it exactly once, everyone
else zero times. -/
theorem C7_chat_broadcast_witness :
    ∃ info, sfind? 1 (run [Op.join 1 ⟨7, 100, 100, 0⟩ 0,
        Op.join 2 ⟨7, 200, 200, 1⟩ 1]).userSockets = some info ∧
      (chatMessage 1 ⟨7, 55, true, none⟩ 9
        (run [Op.join 1 ⟨7, 100, 100, 0⟩ 0,
          Op.join 2 ⟨7, 200, 200, 1⟩ 1])).1 =
        run [Op.join 1 ⟨7, 100, 100, 0⟩ 0, Op.join 2 ⟨7, 200, 200, 1⟩ 1] ∧
      ∀ x, countOcc (x, Event.chatMsg 1 info.userId info.userName 55
            true (Option.getD none 9))
          (chatMessage 1 ⟨7, 55, true, none⟩ 9
            (run [Op.join 1 ⟨7, 100, 100, 0⟩ 0,
              Op.join 2 ⟨7, 200, 200, 1⟩ 1])).2 =
        if ((7 : RoomId), x) ∈ (run [Op.join 1 ⟨7, 100, 100, 0⟩ 0,
            Op.join 2 ⟨7, 200, 200, 1⟩ 1]).sio then 1 else 0 :=
  C7_chat_broadcast [Op.join 1 ⟨7, 100, 100, 0⟩ 0,
    Op.join 2 ⟨7, 200, 200, 1⟩ 1] 1 ⟨7, 55, true, none⟩ 9 (by decide)

/-- A `leave-room` leaves the whole state unchanged whenever the
leaver is neither in the room's transport group nor (when the room
exists) in its member map, the member map being non-empty. -/
theorem leave_state_noop {s : SocketId} {r : RoomId} {σ : ServerState}
    (hsio : (r, s) ∉ σ.sio)
    (hpart : ∀ room, sfind? r σ.rooms = some room →
      sfind? s room.participants = none ∧ room.participants ≠ []) :
    (leaveRoom s r σ).1 = σ := by
  unfold leaveRoom
  cases hroom : sfind? r σ.rooms with
  | none => rw [handleLeaveRoom_none hroom]
  | some room =>
    obtain ⟨hnone, hne⟩ := hpart room hroom
    rw [handleLeaveRoom_some hroom, serase_of_sfind?_none hnone,
      if_neg hne, sioLeave_of_not_mem hsio,
      show ({room with participants := room.participants} : Room) = room
        from rfl,
      sinsert_of_sfind?_some hroom]

/-- C5 counterexample: connections 1 and 2 join room 7 and connection
1 disconnects (handled as its leave); a subsequently replayed
`leave-room` for the same connection and room delivers a spurious
`user-left` notification to the remaining member 2, refuting the claim
that the subsequent leave is a no-op. -/
theorem C5_cex_replayed_leave_notifies :
    (leaveRoom 1 7 (run [Op.join 1 ⟨7, 100, 100, 0⟩ 0,
        Op.join 2 ⟨7, 200, 200, 1⟩ 1, Op.disc 1])).2 =
      [(2, Event.userLeft 1 none none)] := by
  decide

/-- C5 amended: in any reachable state, for a connection whose
registry entry records room R, disconnect has the same effect on the
directory as an explicit `leave-room` for R followed by removal of the
registry entry, emits the same `user-left` notifications to the same
recipients, and has the same effect on R's transport group; a
subsequent `leave-room` for the same connection and room leaves the
state unchanged (though, when the room still exists, its remaining
members receive a spurious `user-left`, per the counterexample); and
disconnect of a connection with no registry entry is a complete no-op
with no emission. -/
theorem C5_disconnect_leave_equivalence (ops : List Op) (s : SocketId)
    (r : RoomId) :
    (∀ info, sfind? s (run ops).userSockets = some info →
      info.roomId = some r →
      (disconnect s (run ops)).1.rooms =
        (leaveRoom s r (run ops)).1.rooms ∧
      (disconnect s (run ops)).1.userSockets =
        serase s (leaveRoom s r (run ops)).1.userSockets ∧
      (disconnect s (run ops)).2 = (leaveRoom s r (run ops)).2 ∧
      sioMembers r (disconnect s (run ops)).1.sio =
        sioMembers r (leaveRoom s r (run ops)).1.sio ∧
      (leaveRoom s r (disconnect s (run ops)).1).1 =
        (disconnect s (run ops)).1) ∧
    (sfind? s (run ops).userSockets = none →
      disconnect s (run ops) = (run ops, [])) := by
  have hI := inv_run ops
  constructor
  · intro info hreg hrid
    rw [disconnect_room hreg hrid]
    unfold leaveRoom
    cases hroom : sfind? r (run ops).rooms with
    | none =>
      have hsioempty : sioMembers r (run ops).sio = [] := by
        apply sioMembers_eq_nil
        intro x hmem
        obtain ⟨room, hroom', _⟩ := hI.sio_sub r x hmem
        rw [hroom] at hroom'
        exact Option.noConfusion hroom'
      rw [handleLeaveRoom_none hroom,
        handleLeaveRoom_none (show sfind? r ({run ops with
          sio := sioPurge s (run ops).sio} : ServerState).rooms = none
          from hroom)]
      refine ⟨rfl, rfl, rfl, ?_, ?_⟩
      · show sioMembers r (sioPurge s (run ops).sio) =
          sioMembers r (run ops).sio
        rw [sioMembers_sioPurge, hsioempty]
        rfl
      · apply leave_state_noop
        · intro hmem
          exact (mem_sioPurge hmem).2 rfl
        · intro room hroom'
          rw [show ({run ops with sio := sioPurge s (run ops).sio} :
            ServerState).rooms = (run ops).rooms from rfl] at hroom'
          rw [hroom] at hroom'
          exact Option.noConfusion hroom'
    | some room =>
      rw [handleLeaveRoom_some hroom,
        handleLeaveRoom_some (show sfind? r ({run ops with
          sio := sioPurge s (run ops).sio} : ServerState).rooms =
          some room from hroom)]
      refine ⟨rfl, rfl, ?_, ?_, ?_⟩
      · simp only [sioLeave_sioPurge, sioMembers_sioPurge,
          sioMembers_sioLeave, exceptSelf_idem]
      · simp only [sioLeave_sioPurge, sioMembers_sioPurge,
          sioMembers_sioLeave, exceptSelf_idem]
      · by_cases hP : serase s room.participants = []
        · rw [if_pos hP]
          apply leave_state_noop
          · intro hmem
            exact (mem_sioPurge (mem_sioLeave hmem).1).2 rfl
          · intro room' hroom'
            rw [show (serase r (run ops).rooms : List (RoomId × Room)) =
              serase r (run ops).rooms from rfl] at hroom'
            rw [sfind?_serase_self] at hroom'
            exact Option.noConfusion hroom'
        · rw [if_neg hP]
          apply leave_state_noop
          · intro hmem
            exact (mem_sioPurge (mem_sioLeave hmem).1).2 rfl
          · intro room' hroom'
            rw [sfind?_sinsert_self] at hroom'
            have hr' : room' = {room with
                participants := serase s room.participants} :=
              (Option.some.injEq _ _ ▸ hroom').symm
            subst hr'
            exact ⟨sfind?_serase_self _ _, hP⟩
  · intro hreg
    rw [disconnect_not_registered hreg]
    have h1 : serase s (run ops).userSockets = (run ops).userSockets :=
      serase_of_sfind?_none hreg
    have h2 : sioPurge s (run ops).sio = (run ops).sio := by
      apply sioPurge_of_forall_ne
      intro p hp hps
      have hmem : (p.1, s) ∈ (run ops).sio := by
        rw [← hps]
        exact hp
      have := hI.sio_registered p.1 s hmem
      rw [hreg] at this
      simp at this
    rw [h1, h2]

/-- Witness for C5 at concrete inputs: connections 1 and 2 in room 7
with 1 disconnecting (its registry entry records room 7), and the
never-registered connection 3 disconnecting as a complete no-op. -/
theorem C5_disconnect_leave_equivalence_witness :
    ((disconnect 1 (run [Op.join 1 ⟨7, 100, 100, 0⟩ 0,
        Op.join 2 ⟨7, 200, 200, 1⟩ 1])).1.rooms =
      (leaveRoom 1 7 (run [Op.join 1 ⟨7, 100, 100, 0⟩ 0,
        Op.join 2 ⟨7, 200, 200, 1⟩ 1])).1.rooms ∧
      (disconnect 1 (run [Op.join 1 ⟨7, 100, 100, 0⟩ 0,
          Op.join 2 ⟨7, 200, 200, 1⟩ 1])).1.userSockets =
        serase 1 (leaveRoom 1 7 (run [Op.join 1 ⟨7, 100, 100, 0⟩ 0,
          Op.join 2 ⟨7, 200, 200, 1⟩ 1])).1.userSockets ∧
      (disconnect 1 (run [Op.join 1 ⟨7, 100, 100, 0⟩ 0,
          Op.join 2 ⟨7, 200, 200, 1⟩ 1])).2 =
        (leaveRoom 1 7 (run [Op.join 1 ⟨7, 100, 100, 0⟩ 0,
          Op.join 2 ⟨7, 200, 200, 1⟩ 1])).2 ∧
      sioMembers 7 (disconnect 1 (run [Op.join 1 ⟨7, 100, 100, 0⟩ 0,
          Op.join 2 ⟨7, 200, 200, 1⟩ 1])).1.sio =
        sioMembers 7 (leaveRoom 1 7 (run [Op.join 1 ⟨7, 100, 100, 0⟩ 0,
          Op.join 2 ⟨7, 200, 200, 1⟩ 1])).1.sio ∧
      (leaveRoom 1 7 (disconnect 1 (run [Op.join 1 ⟨7, 100, 100, 0⟩ 0,
          Op.join 2 ⟨7, 200, 200, 1⟩ 1])).1).1 =
        (disconnect 1 (run [Op.join 1 ⟨7, 100, 100, 0⟩ 0,
          Op.join 2 ⟨7, 200, 200, 1⟩ 1])).1) ∧
    disconnect 3 (run []) = (run [], []) := by
  refine ⟨(C5_disconnect_leave_equivalence [Op.join 1 ⟨7, 100, 100, 0⟩ 0,
      Op.join 2 ⟨7, 200, 200, 1⟩ 1] 1 7).1
      ⟨some 100, some 100, some 0, some 7⟩ (by decide) rfl, ?_⟩
  exact (C5_disconnect_leave_equivalence [] 3 7).2 (by decide)

end MediLock
